import Mathlib

/-!
Verification development for the go-jsn library (package `jsn`).

The Go source (src/jsn/jsn.go) is shallowly embedded below:

* `GoVal` models the dynamic `interface{}` value produced by the standard
  JSON decoder: JSON null decodes to the nil interface (`GoVal.null`),
  booleans to `bool`, numbers to `float64` (modelled by their exact value
  as a rational, `Rat`), strings to `string`, objects to
  `map[string]interface{}` (modelled as an association list with unique
  keys, last assignment winning, iteration order unspecified in Go) and
  arrays to `[]interface{}`.  `GoVal.numStr` models `encoding/json.Number`,
  the string-backed number representation handled by the `Int64`/`Float64`
  getters.
* The decoder/encoder boundary (`encoding/json`) is modelled from the
  spec's boundary contract by an executable JSON parser (`parseValue`,
  fuelled recursion) and printer (`jsonEncode`).  Number payloads are
  idealised to exact decimal rationals: the binary64 rounding performed by
  the concrete decoder is not modelled, and none of the theorems below
  depend on it.  Decode/encode errors are modelled opaquely by `Option`.
* `Json` is the core navigator: a `(data, exists)` pair, with the methods
  `Get`, `K`, `I`, `Exists`, `IterMap`, `Undefined`, `Null`,
  `NullOrUndefined`, the typed getters `String`, `Int64`, `Int`,
  `Float64`, `Bool`, the array view `Array`/`Elements`, and the
  serialisation methods `MarshalJSON`, `Marshal`, `MarshalIndent`,
  `Stringify`, `StringifyIndent`.
-/

namespace Jsn

/-- Alias for the core string type, needed in signatures of `Json`
methods declared after the getter `Json.String` (where the bare name
`String` resolves to that getter). -/
abbrev Str := String

/-- Model of Go `interface{}` data as produced by `encoding/json` decoding:
`null` is the nil interface, `num` is a `float64` payload (exact value as a
rational), `numStr` is a string-backed `json.Number`. -/
inductive GoVal : Type where
  | null : GoVal
  | bool (b : Bool) : GoVal
  | num (q : Rat) : GoVal
  | numStr (s : String) : GoVal
  | str (s : String) : GoVal
  | obj (m : List (String × GoVal)) : GoVal
  | arr (a : List GoVal) : GoVal

/-- Model of Go map lookup `v, ok := m[key]` over the association list
(keys are unique, see `setKey`). -/
def mapGet : List (String × GoVal) → String → Option GoVal
  | [], _ => none
  | (k0, v) :: rest, k => if k0 = k then some v else mapGet rest k

/-- Model of Go map assignment `m[key] = v`: overwrites an existing
binding (so a duplicate key in the input JSON keeps the last value, as
with `encoding/json` decoding into a map). -/
def setKey : List (String × GoVal) → String → GoVal → List (String × GoVal)
  | [], k, v => [(k, v)]
  | (k0, v0) :: rest, k, v =>
    if k0 = k then (k, v) :: rest else (k0, v0) :: setKey rest k v

/-! ### The decoder boundary

Modelled from the spec: the `encoding/json` text-to-value decoder
(`json.Unmarshal` into `interface{}`), an external collaborator of the
repository specified only at its interface boundary.  It is implemented
here as an executable recursive-descent JSON parser. -/

def isWsChar (c : Char) : Bool :=
  c = ' ' || c = '\t' || c = '\n' || c = '\r'

def skipWs : List Char → List Char
  | [] => []
  | c :: rest => if isWsChar c then skipWs rest else c :: rest

def digitVal (c : Char) : Nat := c.toNat - 48

def natFromDigits (ds : List Char) : Nat :=
  ds.foldl (fun a c => a * 10 + digitVal c) 0

/-- Exponent part of a JSON number: an optional sign and a nonempty digit
run. -/
def parseExp (cs : List Char) : Option (Int × List Char) :=
  let sgn : Bool × List Char :=
    match cs with
    | '+' :: rest => (false, rest)
    | '-' :: rest => (true, rest)
    | _ => (false, cs)
  let ds := sgn.2.takeWhile Char.isDigit
  if ds.isEmpty then none
  else
    let n : Int := (natFromDigits ds : Int)
    some (if sgn.1 then -n else n, sgn.2.dropWhile Char.isDigit)

/-- JSON number grammar: `-? (0 | [1-9][0-9]*) (. [0-9]+)? ([eE][+-]?[0-9]+)?`.
The value is assembled with integer arithmetic and a single `mkRat`. -/
def parseNumber (cs : List Char) : Option (Rat × List Char) :=
  let sgn : Bool × List Char :=
    match cs with
    | '-' :: rest => (true, rest)
    | _ => (false, cs)
  let intDs := sgn.2.takeWhile Char.isDigit
  let cs2 := sgn.2.dropWhile Char.isDigit
  if intDs.isEmpty then none
  else if 1 < intDs.length && intDs.headD 'x' = '0' then none
  else
    let fracRes : Option (List Char × List Char) :=
      match cs2 with
      | '.' :: r =>
        let fd := r.takeWhile Char.isDigit
        if fd.isEmpty then none else some (fd, r.dropWhile Char.isDigit)
      | _ => some ([], cs2)
    match fracRes with
    | none => none
    | some (fracDs, cs3) =>
      let expRes : Option (Int × List Char) :=
        match cs3 with
        | 'e' :: r => parseExp r
        | 'E' :: r => parseExp r
        | _ => some (0, cs3)
      match expRes with
      | none => none
      | some (e, cs4) =>
        let mant : Nat := natFromDigits intDs * 10 ^ fracDs.length + natFromDigits fracDs
        let mantI : Int := if sgn.1 then -(mant : Int) else (mant : Int)
        let fexp : Int := e - (fracDs.length : Int)
        let q : Rat :=
          if 0 ≤ fexp then mkRat (mantI * ((10 ^ fexp.toNat : Nat) : Int)) 1
          else mkRat mantI (10 ^ (-fexp).toNat)
        some (q, cs4)

def hexVal (c : Char) : Option Nat :=
  if '0' ≤ c && c ≤ '9' then some (c.toNat - 48)
  else if 'a' ≤ c && c ≤ 'f' then some (c.toNat - 87)
  else if 'A' ≤ c && c ≤ 'F' then some (c.toNat - 55)
  else none

/-- Single-character escapes of JSON strings. -/
def escChar (c : Char) : Option Char :=
  if c = '"' then some '"'
  else if c = '\\' then some '\\'
  else if c = '/' then some '/'
  else if c = 'b' then some (Char.ofNat 8)
  else if c = 'f' then some (Char.ofNat 12)
  else if c = 'n' then some '\n'
  else if c = 'r' then some (Char.ofNat 13)
  else if c = 't' then some '\t'
  else none

/-- Body of a JSON string after the opening quote.  `\uXXXX` escapes are
idealised through `Char.ofNat` (surrogate-pair recombination of the
concrete decoder is not modelled; no theorem depends on it). -/
def parseStringAux : List Char → List Char → Option (String × List Char)
  | [], _ => none
  | '"' :: rest, acc => some (⟨acc.reverse⟩, rest)
  | '\\' :: rest, acc =>
    match rest with
    | 'u' :: a :: b :: c :: d :: r2 =>
      match hexVal a, hexVal b, hexVal c, hexVal d with
      | some ha, some hb, some hc, some hd =>
        parseStringAux r2 (Char.ofNat (((ha * 16 + hb) * 16 + hc) * 16 + hd) :: acc)
      | _, _, _, _ => none
    | e :: r2 =>
      match escChar e with
      | some c => parseStringAux r2 (c :: acc)
      | none => none
    | [] => none
  | c :: rest, acc =>
    if c.toNat < 32 then none else parseStringAux rest (c :: acc)

mutual

/-- One JSON value (fuelled; the fuel chosen by `goUnmarshal` always
suffices for its input). -/
def parseValue : Nat → List Char → Option (GoVal × List Char)
  | 0, _ => none
  | fuel+1, cs =>
    match skipWs cs with
    | 'n' :: 'u' :: 'l' :: 'l' :: rest => some (.null, rest)
    | 't' :: 'r' :: 'u' :: 'e' :: rest => some (.bool true, rest)
    | 'f' :: 'a' :: 'l' :: 's' :: 'e' :: rest => some (.bool false, rest)
    | '"' :: rest =>
      match parseStringAux rest [] with
      | some (s, r) => some (.str s, r)
      | none => none
    | '[' :: rest =>
      match skipWs rest with
      | ']' :: r2 => some (.arr [], r2)
      | _ => parseElems fuel rest []
    | '{' :: rest =>
      match skipWs rest with
      | '}' :: r2 => some (.obj [], r2)
      | _ => parseMembers fuel rest []
    | other =>
      match parseNumber other with
      | some (q, r) => some (.num q, r)
      | none => none

/-- Comma-separated members of a JSON object (after the opening brace). -/
def parseMembers : Nat → List Char → List (String × GoVal) →
    Option (GoVal × List Char)
  | 0, _, _ => none
  | fuel+1, cs, acc =>
    match skipWs cs with
    | '"' :: r1 =>
      match parseStringAux r1 [] with
      | none => none
      | some (k, r2) =>
        match skipWs r2 with
        | ':' :: r3 =>
          match parseValue fuel r3 with
          | none => none
          | some (v, r4) =>
            match skipWs r4 with
            | ',' :: r5 => parseMembers fuel r5 (setKey acc k v)
            | '}' :: r5 => some (.obj (setKey acc k v), r5)
            | _ => none
        | _ => none
    | _ => none

/-- Comma-separated elements of a JSON array (after the opening bracket). -/
def parseElems : Nat → List Char → List GoVal → Option (GoVal × List Char)
  | 0, _, _ => none
  | fuel+1, cs, acc =>
    match parseValue fuel cs with
    | none => none
    | some (v, rest) =>
      match skipWs rest with
      | ',' :: r2 => parseElems fuel r2 (v :: acc)
      | ']' :: r2 => some (.arr (v :: acc).reverse, r2)
      | _ => none

end

/-- Modelled from the spec: `json.Unmarshal` into `interface{}` — decode
one JSON value and require only whitespace after it; `none` is a decode
error. -/
def goUnmarshal (s : String) : Option GoVal :=
  match parseValue (2 * s.length + 16) s.data with
  | some (v, rest) => if (skipWs rest).isEmpty then some v else none
  | none => none

/-- Modelled from the spec: `json.NewDecoder(r).Decode` — decode one JSON
value from the stream, leaving anything after it unread. -/
def goDecodeStream (s : String) : Option GoVal :=
  (parseValue (2 * s.length + 16) s.data).map (fun p => p.1)

/-! ### The encoder boundary

Modelled from the spec: the value-to-text JSON encoder (`json.Marshal` /
`json.MarshalIndent` applied to a generic value).  The HTML escaping and
map-key sorting of the concrete library encoder are not modelled; no
theorem below depends on the exact text of a non-`null` encoding. -/

def hexDigit (n : Nat) : Char :=
  if n < 10 then Char.ofNat (48 + n) else Char.ofNat (87 + n)

def escOut : List Char → List Char
  | [] => []
  | c :: rest =>
    if c = '"' then '\\' :: '"' :: escOut rest
    else if c = '\\' then '\\' :: '\\' :: escOut rest
    else if c = '\n' then '\\' :: 'n' :: escOut rest
    else if c = '\r' then '\\' :: 'r' :: escOut rest
    else if c = '\t' then '\\' :: 't' :: escOut rest
    else if c.toNat < 32 then
      '\\' :: 'u' :: '0' :: '0' :: hexDigit (c.toNat / 16) :: hexDigit (c.toNat % 16) :: escOut rest
    else c :: escOut rest

def encString (s : String) : String := "\"" ++ (⟨escOut s.data⟩ : String) ++ "\""

/-- Smallest exponent `e` (searched up to the given fuel) with `den ∣ 10^e`. -/
def findExpAux (den : Nat) : Nat → Nat → Option Nat
  | e, 0 => if 10 ^ e % den = 0 then some e else none
  | e, fuel+1 => if 10 ^ e % den = 0 then some e else findExpAux den (e+1) fuel

def padZeros (s : List Char) (n : Nat) : List Char :=
  List.replicate (n - s.length) '0' ++ s

/-- Decimal rendering of a number payload.  A float64 payload always has a
finite decimal expansion; the `none` fallback cannot arise for such
payloads and is a modelling artefact of using `Rat`. -/
def encodeNum (q : Rat) : String :=
  if q.den = 1 then toString q.num
  else
    match findExpAux q.den 1 1200 with
    | some e =>
      let scaled : Nat := q.num.natAbs * (10 ^ e / q.den)
      let ip := scaled / 10 ^ e
      let fp := scaled % 10 ^ e
      (if q.num < 0 then "-" else "") ++ toString ip ++ "." ++
        (⟨padZeros (toString fp).data e⟩ : String)
    | none => "0"

mutual

/-- Compact JSON encoding of a generic value (`json.Marshal`).  A
`json.Number` marshals as its literal text. -/
def jsonEncode : GoVal → String
  | .null => "null"
  | .bool true => "true"
  | .bool false => "false"
  | .num q => encodeNum q
  | .numStr s => s
  | .str s => encString s
  | .obj m => "\x7b" ++ encMembers m ++ "\x7d"
  | .arr a => "[" ++ encElems a ++ "]"

def encMembers : List (String × GoVal) → String
  | [] => ""
  | [(k, v)] => encString k ++ ":" ++ jsonEncode v
  | (k, v) :: rest => encString k ++ ":" ++ jsonEncode v ++ "," ++ encMembers rest

def encElems : List GoVal → String
  | [] => ""
  | [v] => jsonEncode v
  | v :: rest => jsonEncode v ++ "," ++ encElems rest

end

def repeatStr (s : String) : Nat → String
  | 0 => ""
  | n+1 => s ++ repeatStr s n

mutual

/-- Indented JSON encoding (`json.MarshalIndent` semantics: every nested
line is preceded by the line prefix and one indent unit per depth). -/
def jsonEncodeInd (pre ind : String) : Nat → GoVal → String
  | _, .null => "null"
  | _, .bool true => "true"
  | _, .bool false => "false"
  | _, .num q => encodeNum q
  | _, .numStr s => s
  | _, .str s => encString s
  | _, .obj [] => "{}"
  | d, .obj m =>
    "\x7b\n" ++ encMembersInd pre ind (d+1) m ++ "\n" ++ pre ++ repeatStr ind d ++ "\x7d"
  | _, .arr [] => "[]"
  | d, .arr a =>
    "[\n" ++ encElemsInd pre ind (d+1) a ++ "\n" ++ pre ++ repeatStr ind d ++ "]"

def encMembersInd (pre ind : String) : Nat → List (String × GoVal) → String
  | _, [] => ""
  | d, [(k, v)] =>
    pre ++ repeatStr ind d ++ encString k ++ ": " ++ jsonEncodeInd pre ind d v
  | d, (k, v) :: rest =>
    pre ++ repeatStr ind d ++ encString k ++ ": " ++ jsonEncodeInd pre ind d v ++
      ",\n" ++ encMembersInd pre ind d rest

def encElemsInd (pre ind : String) : Nat → List GoVal → String
  | _, [] => ""
  | d, [v] => pre ++ repeatStr ind d ++ jsonEncodeInd pre ind d v
  | d, v :: rest =>
    pre ++ repeatStr ind d ++ jsonEncodeInd pre ind d v ++ ",\n" ++
      encElemsInd pre ind d rest

end

/-- Modelled from the spec: `json.Marshal` of a decoded generic value.
Encoding a value of the closed union `GoVal` cannot fail; the `Option` is
the Go `error` slot, which is only populated for dynamic values outside
this union (function, channel, ...), none of which a decoded value can
contain. -/
def goMarshalVal (v : GoVal) : Option String := some (jsonEncode v)

/-- Modelled from the spec: `json.MarshalIndent` of a decoded generic
value; infallible for the same reason as `goMarshalVal`. -/
def goMarshalIndentVal (pre ind : String) (v : GoVal) : Option String :=
  some (jsonEncodeInd pre ind 0 v)

/-! ### strconv boundary -/

def maxInt64 : Int := 2 ^ 63 - 1
def minInt64 : Int := -(2 ^ 63)

/-- Modelled from the spec: `strconv.ParseInt(s, 10, 64)` as used by
`json.Number.Int64`.  Returns `(value, err == nil)`.  Per the strconv
contract: on a syntax error (empty, non-digit, fractional text) the value
is 0; on a range error the value is the CLAMPED maximum-magnitude int64 of
the appropriate sign. -/
def parseInt64 (s : String) : Int × Bool :=
  let sgn : Bool × List Char :=
    match s.data with
    | '-' :: rest => (true, rest)
    | '+' :: rest => (false, rest)
    | cs => (false, cs)
  if sgn.2.isEmpty || !(sgn.2.all Char.isDigit) then (0, false)
  else
    let v : Int :=
      if sgn.1 then -((natFromDigits sgn.2 : Nat) : Int) else ((natFromDigits sgn.2 : Nat) : Int)
    if v < minInt64 then (minInt64, false)
    else if maxInt64 < v then (maxInt64, false)
    else (v, true)

/-- Modelled from the spec: the value produced by `strconv.ParseFloat` as
used by `json.Number.Float64`, idealised to the exact decimal rational
(binary64 rounding and overflow-to-infinity are not modelled; no theorem
below relies on this branch). -/
def parseFloatQ (s : String) : Option Rat :=
  match parseNumber s.data with
  | some (q, []) => some q
  | _ => none

/-- Truncation toward zero of a rational, the semantics of Go's in-range
`int64(f)` conversion for `f : float64`. -/
def ratTrunc (q : Rat) : Int :=
  if q.num < 0 then -((q.num.natAbs / q.den : Nat) : Int)
  else ((q.num.natAbs / q.den : Nat) : Int)

/-- Go's `int64(f)` conversion: truncation toward zero while the result
fits in int64.  Out of that range the Go conversion is
implementation-defined; amd64 yields math.MinInt64, which is used here. -/
def int64OfFloat (q : Rat) : Int :=
  if ratTrunc q < minInt64 ∨ maxInt64 < ratTrunc q then minInt64
  else ratTrunc q

/-! ### The typed-result structs (source: `String`, `Int`, `Int64`,
`Float64`, `Bool`, `Array` — suffixed with `V` here to avoid clashing
with the Lean core types of the same names). -/

/-- Source struct `String`: carries a string `.Value` if `.IsValid`. -/
structure StringV where
  Value : String
  IsValid : Bool

/-- Source struct `Int`: carries an int `.Value` if `.IsValid` (Go `int`
is 64 bits wide on the supported platforms). -/
structure IntV where
  Value : Int
  IsValid : Bool

/-- Source struct `Int64`. -/
structure Int64V where
  Value : Int
  IsValid : Bool

/-- Source struct `Float64` (float64 payload modelled as an exact
rational). -/
structure Float64V where
  Value : Rat
  IsValid : Bool

/-- Source struct `Bool`. -/
structure BoolV where
  Value : Bool
  IsValid : Bool

/-- Source struct `Array`: opaque elements plus `IsValid`; a `none`
elements field is Go's nil slice. -/
structure ArrayV where
  elements : Option (List GoVal)
  IsValid : Bool

/-! ### The Json navigator -/

/-- Source struct `Json`: a generic value plus an exists flag.  The Go
zero value `Json{}` is `⟨GoVal.null, false⟩` (nil data, exists false). -/
structure Json where
  data : GoVal
  exists_ : Bool

/-- Source `Array.Elements`: defaults to the empty (non-nil) slice when
invalid or when the elements slice is nil; otherwise wraps every element
as an existing Json, in order. -/
def ArrayV.Elements (a : ArrayV) : List Json :=
  if !a.IsValid then []
  else
    match a.elements with
    | none => []
    | some l => l.map (fun v => (⟨v, true⟩ : Json))

/-- The sources `NewJson` dispatches on: raw bytes, a string, an
`io.Reader` (its full contents), or any other in-memory value (restricted
to JSON-shaped values; `GoVal.null` stands for a nil/zero source). -/
inductive GoSrc : Type where
  | bytes (s : String) : GoSrc
  | str (s : String) : GoSrc
  | reader (s : String) : GoSrc
  | other (v : GoVal) : GoSrc

/-- The common tail of `NewJson`: `if err == nil { js = Json{data, true} }`
— on error the named result `js` keeps its zero value `Json{}`.  The
second component is the returned `err` (opaque; `some ()` = non-nil). -/
def newJsonResult : Option GoVal → Json × Option Unit
  | some d => (⟨d, true⟩, none)
  | none => (⟨GoVal.null, false⟩, some ())

/-- Source `NewJson`: `[]byte` and `string` sources are unmarshalled as
JSON text, an `io.Reader` is decoded from the stream, and any other value
is marshalled to JSON text and that text unmarshalled. -/
def NewJson : GoSrc → Json × Option Unit
  | .bytes s => newJsonResult (goUnmarshal s)
  | .str s => newJsonResult (goUnmarshal s)
  | .reader s => newJsonResult (goDecodeStream s)
  | .other v =>
    newJsonResult
      (match goMarshalVal v with
       | some text => goUnmarshal text
       | none => none)

/-- Source `asMap`: nil map and false unless the navigator exists and its
data is a `map[string]interface{}`. -/
def Json.asMap (j : Json) : Option (List (String × GoVal)) :=
  if j.exists_ then
    match j.data with
    | .obj m => some m
    | _ => none
  else none

/-- Source `asArray`. -/
def Json.asArray (j : Json) : Option (List GoVal) :=
  if j.exists_ then
    match j.data with
    | .arr a => some a
    | _ => none
  else none

/-- Source `Exists`: true if it is a Json map and the key exists. -/
def Json.Exists (j : Json) (key : String) : Bool :=
  match j.asMap with
  | none => false
  | some m => (mapGet m key).isSome

/-- Source `Get`: `v, exists := m[key]; return Json{v, exists}` — a missing
key or a non-map parent yields the zero `Json{}`. -/
def Json.Get (j : Json) (key : String) : Json :=
  match j.asMap with
  | none => ⟨GoVal.null, false⟩
  | some m =>
    match mapGet m key with
    | some v => ⟨v, true⟩
    | none => ⟨GoVal.null, false⟩

/-- Source `K`: a shortcut for `Get`. -/
def Json.K (j : Json) (key : String) : Json := j.Get key

/-- Source `I`: array element by index; `Json{}` when out of bounds or not
an array. -/
def Json.I (j : Json) (index : Int) : Json :=
  match j.asArray with
  | none => ⟨GoVal.null, false⟩
  | some a =>
    if index < 0 ∨ (a.length : Int) - 1 < index then ⟨GoVal.null, false⟩
    else ⟨a.getD index.toNat GoVal.null, true⟩

/-- The loop body of `IterMap`: increment the count, call the callback on
the wrapped entry, stop when it returns false. -/
def iterMapAux (f : String → Json → Bool) : List (String × GoVal) → Nat → Nat
  | [], count => count
  | (k, v) :: rest, count =>
    if f k ⟨v, true⟩ then iterMapAux f rest (count + 1) else count + 1

/-- Source `IterMap`: iterate the map (Go map order is unspecified; the
model iterates in list order — the claims proved below are
order-insensitive), returning the number of keys iterated. -/
def Json.IterMap (j : Json) (f : String → Json → Bool) : Nat :=
  match j.asMap with
  | none => 0
  | some m => iterMapAux f m 0

/-- Source `Undefined`: true when the navigator does not exist. -/
def Json.Undefined (j : Json) : Bool := !j.exists_

/-- Source `Null`: `j.exists && j.data == nil`. -/
def Json.Null (j : Json) : Bool :=
  j.exists_ &&
    match j.data with
    | .null => true
    | _ => false

/-- Source `NullOrUndefined`: literally `j.data == nil`. -/
def Json.NullOrUndefined (j : Json) : Bool :=
  match j.data with
  | .null => true
  | _ => false

/-- Source getter `String`. -/
def Json.String (j : Json) : StringV :=
  if j.exists_ then
    match j.data with
    | .str s => ⟨s, true⟩
    | _ => ⟨"", false⟩
  else ⟨"", false⟩

/-- Source getter `Int64`: `int64(f)` for a float64 payload,
`json.Number.Int64()` (value and `err == nil`) for a `json.Number`
payload. -/
def Json.Int64 (j : Json) : Int64V :=
  if j.exists_ then
    match j.data with
    | .num q => ⟨int64OfFloat q, true⟩
    | .numStr s => ⟨(parseInt64 s).1, (parseInt64 s).2⟩
    | _ => ⟨0, false⟩
  else ⟨0, false⟩

/-- Source getter `Int`: `Int{int(v.Value), v.IsValid}` — `int(int64)` is
the identity on the supported 64-bit platforms. -/
def Json.Int (j : Json) : IntV := ⟨(j.Int64).Value, (j.Int64).IsValid⟩

/-- Source getter `Float64`. -/
def Json.Float64 (j : Json) : Float64V :=
  if j.exists_ then
    match j.data with
    | .num q => ⟨q, true⟩
    | .numStr s =>
      match parseFloatQ s with
      | some q => ⟨q, true⟩
      | none => ⟨0, false⟩
    | _ => ⟨0, false⟩
  else ⟨0, false⟩

/-- Source getter `Bool`. -/
def Json.Bool (j : Json) : BoolV :=
  if j.exists_ then
    match j.data with
    | .bool b => ⟨b, true⟩
    | _ => ⟨false, false⟩
  else ⟨false, false⟩

/-- Source `Array`: `Array{a, ok}` from `asArray`. -/
def Json.Array (j : Json) : ArrayV :=
  match j.asArray with
  | some a => ⟨some a, true⟩
  | none => ⟨none, false⟩

/-- The value `MarshalJSON` serialises: `j.data` when the navigator
exists, else `Json{}.data` (nil, i.e. JSON null). -/
def Json.effData (j : Json) : GoVal :=
  if j.exists_ then j.data else GoVal.null

/-- Source `MarshalJSON` (the `json.Marshaler` hook every serialisation
method goes through). -/
def Json.MarshalJSON (j : Json) : Option Str := goMarshalVal j.effData

/-- Source `Marshal`: explicit-error variant; `("", err)` on failure. -/
def Json.Marshal (j : Json) : Str × Option Unit :=
  match j.MarshalJSON with
  | some s => (s, none)
  | none => ("", some ())

/-- Source `MarshalIndent`: explicit-error indented variant. -/
def Json.MarshalIndent (j : Json) (pre ind : Str) : Str × Option Unit :=
  match goMarshalIndentVal pre ind j.effData with
  | some s => (s, none)
  | none => ("", some ())

/-- Source `Stringify`: silent variant; empty string on failure. -/
def Json.Stringify (j : Json) : Str :=
  match j.MarshalJSON with
  | some s => s
  | none => ""

/-- Source `StringifyIndent`: silent indented variant. -/
def Json.StringifyIndent (j : Json) (pre ind : Str) : Str :=
  match goMarshalIndentVal pre ind j.effData with
  | some s => s
  | none => ""


/-! ## Shared lemmas -/

theorem iterMapAux_min (f : Str → Json → Bool) (m : List (Str × GoVal)) (c : Nat) :
    iterMapAux f m c =
      c + min m.length ((m.takeWhile (fun e => f e.1 ⟨e.2, true⟩)).length + 1) := by
  induction m generalizing c with
  | nil => simp [iterMapAux]
  | cons hd tl ih =>
    obtain ⟨k, v⟩ := hd
    by_cases h : f k ⟨v, true⟩ = true
    · simp only [iterMapAux, h, if_true, List.takeWhile_cons, ih, List.length_cons]
      omega
    · simp only [iterMapAux, h, if_false, List.takeWhile_cons, List.length_cons]
      simp only [Bool.false_eq_true, if_false, List.length_nil]
      omega

theorem iterMapAux_const_true (m : List (Str × GoVal)) (c : Nat) :
    iterMapAux (fun _ _ => true) m c = c + m.length := by
  induction m generalizing c with
  | nil => simp [iterMapAux]
  | cons hd tl ih =>
    obtain ⟨k, v⟩ := hd
    simp only [iterMapAux, if_true, ih, List.length_cons]
    omega

theorem parseInt64_cases (s : Str) :
    (parseInt64 s).2 = true ∨ (parseInt64 s).1 = 0 ∨ (parseInt64 s).1 = maxInt64
      ∨ (parseInt64 s).1 = minInt64 := by
  simp only [parseInt64]
  split_ifs <;> simp

theorem parseInt64_ok_range (s : Str) (h : (parseInt64 s).2 = true) :
    minInt64 ≤ (parseInt64 s).1 ∧ (parseInt64 s).1 ≤ maxInt64 := by
  revert h
  simp only [parseInt64]
  split_ifs with h1 h2 h3 <;> intro h <;> simp_all

theorem natDivCast_bounds (n d : Nat) (hd : 0 < d) :
    ((n / d : Nat) : Rat) ≤ (n : Rat) / (d : Rat)
    ∧ (n : Rat) / (d : Rat) < ((n / d : Nat) : Rat) + 1 := by
  have hd' : (0 : Rat) < (d : Rat) := by exact_mod_cast hd
  constructor
  · rw [le_div_iff₀ hd']
    exact_mod_cast Nat.div_mul_le_self n d
  · rw [div_lt_iff₀ hd']
    have h1 : n < (n / d + 1) * d := by
      have h3 := Nat.mod_lt n hd
      calc n = d * (n / d) + n % d := (Nat.div_add_mod n d).symm
        _ < d * (n / d) + d := by omega
        _ = (n / d + 1) * d := by ring
    exact_mod_cast h1

theorem ratTrunc_toward_zero (q : Rat) :
    (0 ≤ q → ((ratTrunc q : Rat) ≤ q ∧ q - 1 < (ratTrunc q : Rat)))
    ∧ (q < 0 → (q ≤ (ratTrunc q : Rat) ∧ (ratTrunc q : Rat) < q + 1)) := by
  have hb := natDivCast_bounds q.num.natAbs q.den q.pos
  have hqd : ((q.num : Rat)) / ((q.den : Rat)) = q := Rat.num_div_den q
  have hcastp : ((((q.num.natAbs / q.den : Nat) : Int)) : Rat)
      = (((q.num.natAbs / q.den : Nat)) : Rat) := by norm_cast
  constructor
  · intro hq
    have hnum : 0 ≤ q.num := by rwa [Rat.num_nonneg]
    have hnaInt : ((q.num.natAbs : Nat) : Int) = q.num := Int.natAbs_of_nonneg hnum
    have hq1 : (((q.num.natAbs : Nat)) : Rat) / ((q.den : Rat)) = q := by
      rw [show (((q.num.natAbs : Nat)) : Rat) = ((q.num : Int) : Rat) by
        rw [← hnaInt]; exact (Int.cast_natCast _).symm]
      exact hqd
    rw [hq1] at hb
    have hrt : (ratTrunc q : Rat) = (((q.num.natAbs / q.den : Nat)) : Rat) := by
      unfold ratTrunc
      rw [if_neg (by omega : ¬ q.num < 0), hcastp]
    rw [hrt]
    exact ⟨hb.1, by linarith [hb.2]⟩
  · intro hq
    have hnum : q.num < 0 := by
      by_contra hc
      push_neg at hc
      rw [Rat.num_nonneg] at hc
      linarith
    have hnaInt : ((q.num.natAbs : Nat) : Int) = -q.num :=
      Int.ofNat_natAbs_of_nonpos (le_of_lt hnum)
    have hq1 : (((q.num.natAbs : Nat)) : Rat) / ((q.den : Rat)) = -q := by
      rw [show (((q.num.natAbs : Nat)) : Rat) = ((-q.num : Int) : Rat) by
        rw [← hnaInt]; exact (Int.cast_natCast _).symm]
      rw [Int.cast_neg, neg_div, hqd]
    rw [hq1] at hb
    have hrt : (ratTrunc q : Rat) = -(((q.num.natAbs / q.den : Nat)) : Rat) := by
      unfold ratTrunc
      rw [if_pos hnum, Int.cast_neg, hcastp]
    rw [hrt]
    exact ⟨by linarith [hb.1], by linarith [hb.2]⟩

/-! ## Claims -/

/-- C1: for every Json value `j` and key `k`, `Get` (and its alias `K`)
returns the canonical absent Json (exists false, nil data) when `j` does
not exist, when its data is not a map, or when the map lacks `k`; and a
Json with exists true wrapping the stored value (even a null one) when the
map contains `k`.  `Get` is a total function: these cases cover every
input, so it never fails. -/
theorem c1_get_characterization :
    (∀ (j : Json) (k : Str), j.exists_ = false → j.Get k = ⟨GoVal.null, false⟩)
    ∧ (∀ (j : Json) (k : Str), (∀ m, j.data ≠ GoVal.obj m) →
        j.Get k = ⟨GoVal.null, false⟩)
    ∧ (∀ (j : Json) (m : List (Str × GoVal)) (k : Str),
        j.exists_ = true → j.data = GoVal.obj m → mapGet m k = none →
        j.Get k = ⟨GoVal.null, false⟩)
    ∧ (∀ (j : Json) (m : List (Str × GoVal)) (k : Str) (v : GoVal),
        j.exists_ = true → j.data = GoVal.obj m → mapGet m k = some v →
        j.Get k = ⟨v, true⟩)
    ∧ (∀ (j : Json) (k : Str), j.K k = j.Get k) := by
  refine ⟨?_, ?_, ?_, ?_, fun j k => rfl⟩
  · intro j k h
    simp [Json.Get, Json.asMap, h]
  · intro j k h
    cases he : j.exists_ with
    | false => simp [Json.Get, Json.asMap, he]
    | true =>
      cases hd : j.data with
      | obj m => exact absurd hd (h m)
      | _ => simp [Json.Get, Json.asMap, he, hd]
  · intro j m k he hd hk
    simp [Json.Get, Json.asMap, he, hd, hk]
  · intro j m k v he hd hk
    simp [Json.Get, Json.asMap, he, hd, hk]

theorem c1_witness :
    (Json.mk (GoVal.obj [("a", GoVal.num 1)]) true).Get "b" = ⟨GoVal.null, false⟩
    ∧ (Json.mk (GoVal.obj [("a", GoVal.null)]) true).Get "a" = ⟨GoVal.null, true⟩
    ∧ (Json.mk (GoVal.str "x") false).Get "y" = ⟨GoVal.null, false⟩ :=
  ⟨c1_get_characterization.2.2.1 _ [("a", GoVal.num 1)] "b" rfl rfl rfl,
   c1_get_characterization.2.2.2.1 _ [("a", GoVal.null)] "a" GoVal.null rfl rfl rfl,
   c1_get_characterization.1 _ "y" rfl⟩

/-- C10 (implicit): the existence predicate and the navigation operation
never disagree: `j.Exists k` equals `!(j.Get k).Undefined()` for every
Json value and key, including null-valued entries, non-map parents and
absent parents. -/
theorem c10_exists_agrees_with_get :
    ∀ (j : Json) (k : Str), j.Exists k = !(j.Get k).Undefined := by
  intro j k
  cases h : j.asMap with
  | none => simp [Json.Exists, Json.Get, Json.Undefined, h]
  | some m =>
    cases hk : mapGet m k with
    | none => simp [Json.Exists, Json.Get, Json.Undefined, h, hk]
    | some v => simp [Json.Exists, Json.Get, Json.Undefined, h, hk]


/-- C5: three-state semantics.  For a map entry whose value is JSON null,
`Exists` is true and the child is not undefined, is null, and is
null-or-undefined; for a missing key the child is undefined, not null, and
null-or-undefined; and `NullOrUndefined` equals `Null || Undefined` on
every Json satisfying the absent-implies-nil-data invariant — an invariant
the remaining conjuncts show is maintained by every public way of
producing a Json (`NewJson`, `Get`, `I`; `Elements` and `IterMap` children
carry `exists = true` by construction). -/
theorem c5_three_state :
    (∀ (j : Json) (m : List (Str × GoVal)) (k : Str),
        j.asMap = some m → mapGet m k = some GoVal.null →
        j.Exists k = true ∧ (j.Get k).Undefined = false ∧ (j.Get k).Null = true
          ∧ (j.Get k).NullOrUndefined = true)
    ∧ (∀ (j : Json) (m : List (Str × GoVal)) (k : Str),
        j.asMap = some m → mapGet m k = none →
        (j.Get k).Undefined = true ∧ (j.Get k).Null = false
          ∧ (j.Get k).NullOrUndefined = true)
    ∧ (∀ j : Json, (j.exists_ = false → j.data = GoVal.null) →
        j.NullOrUndefined = (j.Null || j.Undefined))
    ∧ (∀ (j : Json) (k : Str), (j.Get k).exists_ = false → (j.Get k).data = GoVal.null)
    ∧ (∀ src : GoSrc, (NewJson src).1.exists_ = false → (NewJson src).1.data = GoVal.null)
    ∧ (∀ (j : Json) (i : Int), (j.I i).exists_ = false → (j.I i).data = GoVal.null) := by
  refine ⟨?_, ?_, ?_, ?_, ?_, ?_⟩
  · intro j m k hm hk
    refine ⟨?_, ?_, ?_, ?_⟩ <;>
      simp [Json.Exists, Json.Get, Json.Undefined, Json.Null, Json.NullOrUndefined, hm, hk]
  · intro j m k hm hk
    refine ⟨?_, ?_, ?_⟩ <;>
      simp [Json.Get, Json.Undefined, Json.Null, Json.NullOrUndefined, hm, hk]
  · intro j hinv
    cases he : j.exists_ with
    | true =>
      cases hd : j.data <;>
        simp [Json.NullOrUndefined, Json.Null, Json.Undefined, he, hd]
    | false =>
      simp [Json.NullOrUndefined, Json.Null, Json.Undefined, he, hinv he]
  · intro j k
    cases hm : j.asMap with
    | none => intro _; simp [Json.Get, hm]
    | some m =>
      cases hk : mapGet m k with
      | none => intro _; simp [Json.Get, hm, hk]
      | some v => simp [Json.Get, hm, hk]
  · intro src
    have key : ∀ r : Option GoVal, (newJsonResult r).1.exists_ = false →
        (newJsonResult r).1.data = GoVal.null := by
      intro r
      cases r <;> simp [newJsonResult]
    cases src <;> simp only [NewJson] <;> exact key _
  · intro j i
    cases ha : j.asArray with
    | none => intro _; simp [Json.I, ha]
    | some a =>
      by_cases hi : i < 0 ∨ (a.length : Int) - 1 < i
      · intro _; simp [Json.I, ha, hi]
      · simp [Json.I, ha, hi]


theorem c5_witness :
    ((Json.mk (GoVal.obj [("a", GoVal.null)]) true).Exists "a" = true
      ∧ ((Json.mk (GoVal.obj [("a", GoVal.null)]) true).Get "a").Undefined = false
      ∧ ((Json.mk (GoVal.obj [("a", GoVal.null)]) true).Get "a").Null = true
      ∧ ((Json.mk (GoVal.obj [("a", GoVal.null)]) true).Get "a").NullOrUndefined = true)
    ∧ (((Json.mk (GoVal.obj [("a", GoVal.null)]) true).Get "zz").Undefined = true
      ∧ ((Json.mk (GoVal.obj [("a", GoVal.null)]) true).Get "zz").Null = false
      ∧ ((Json.mk (GoVal.obj [("a", GoVal.null)]) true).Get "zz").NullOrUndefined = true)
    ∧ (Json.mk (GoVal.str "w") true).NullOrUndefined
        = ((Json.mk (GoVal.str "w") true).Null || (Json.mk (GoVal.str "w") true).Undefined) :=
  ⟨c5_three_state.1 _ [("a", GoVal.null)] "a" rfl rfl,
   c5_three_state.2.1 _ [("a", GoVal.null)] "zz" rfl rfl,
   c5_three_state.2.2.1 _ (fun h => absurd h (by simp))⟩

/-- C7: `IterMap` on a non-map (or absent) Json performs zero visits and
returns 0; on a map it visits entries until the visitor returns false and
returns the number of entries actually visited — `min` of the map size and
one more than the longest all-true prefix, hence the map's size for an
always-true visitor and 1 for a visitor that is false immediately on a
nonempty map. -/
theorem c7_itermap_count :
    (∀ (j : Json) (f : Str → Json → Bool), j.asMap = none → j.IterMap f = 0)
    ∧ (∀ (j : Json) (m : List (Str × GoVal)) (f : Str → Json → Bool),
        j.asMap = some m →
        j.IterMap f = min m.length ((m.takeWhile (fun e => f e.1 ⟨e.2, true⟩)).length + 1))
    ∧ (∀ (j : Json) (m : List (Str × GoVal)), j.asMap = some m →
        j.IterMap (fun _ _ => true) = m.length)
    ∧ (∀ (j : Json) (m : List (Str × GoVal)), j.asMap = some m → m ≠ [] →
        j.IterMap (fun _ _ => false) = 1) := by
  refine ⟨?_, ?_, ?_, ?_⟩
  · intro j f h
    simp [Json.IterMap, h]
  · intro j m f h
    simp only [Json.IterMap, h]
    rw [iterMapAux_min]
    omega
  · intro j m h
    simp only [Json.IterMap, h]
    rw [iterMapAux_const_true]
    omega
  · intro j m h hne
    simp only [Json.IterMap, h]
    cases m with
    | nil => exact absurd rfl hne
    | cons hd tl =>
      obtain ⟨k, v⟩ := hd
      simp [iterMapAux]

theorem c7_witness :
    (Json.mk (GoVal.arr [GoVal.num 1, GoVal.num 2, GoVal.num 3]) true).IterMap
        (fun _ _ => true) = 0
    ∧ (Json.mk (GoVal.obj [("a", GoVal.num 1), ("b", GoVal.num 2)]) true).IterMap
        (fun _ _ => true) = 2
    ∧ (Json.mk (GoVal.obj [("a", GoVal.num 1), ("b", GoVal.num 2)]) true).IterMap
        (fun _ _ => false) = 1 :=
  ⟨c7_itermap_count.1 _ _ rfl,
   c7_itermap_count.2.2.1 _ [("a", GoVal.num 1), ("b", GoVal.num 2)] rfl,
   c7_itermap_count.2.2.2 _ [("a", GoVal.num 1), ("b", GoVal.num 2)] rfl (by simp)⟩

/-- C9: the array view is valid exactly when the Json exists and its data
is an array; `Elements` on an invalid view or a nil elements slice is the
empty (never nil) slice; on a valid view every element — null elements
included — is wrapped as an existing Json, in order. -/
theorem c9_array_view :
    (∀ j : Json, (j.Array).IsValid = true ↔ (j.exists_ = true ∧ ∃ l, j.data = GoVal.arr l))
    ∧ (∀ a : ArrayV, a.IsValid = false → a.Elements = [])
    ∧ (∀ a : ArrayV, a.elements = none → a.Elements = [])
    ∧ (∀ (j : Json) (l : List GoVal), j.exists_ = true → j.data = GoVal.arr l →
        (j.Array).Elements = l.map (fun v => (⟨v, true⟩ : Json))) := by
  refine ⟨?_, ?_, ?_, ?_⟩
  · intro j
    constructor
    · intro h
      cases he : j.exists_ with
      | false => simp [Json.Array, Json.asArray, he] at h
      | true =>
        cases hd : j.data <;> simp_all [Json.Array, Json.asArray]
    · rintro ⟨he, l, hd⟩
      simp [Json.Array, Json.asArray, he, hd]
  · intro a h
    simp [ArrayV.Elements, h]
  · intro a h
    cases hv : a.IsValid <;> simp [ArrayV.Elements, h, hv]
  · intro j l he hd
    simp [Json.Array, Json.asArray, ArrayV.Elements, he, hd]

theorem c9_witness :
    ((Json.mk (GoVal.num 5) true).Array).Elements = []
    ∧ ((Json.mk (GoVal.arr [GoVal.null, GoVal.num 1, GoVal.str "s"]) true).Array).Elements
        = [⟨GoVal.null, true⟩, ⟨GoVal.num 1, true⟩, ⟨GoVal.str "s", true⟩] :=
  ⟨c9_array_view.2.1 _ rfl,
   c9_array_view.2.2.2 _ [GoVal.null, GoVal.num 1, GoVal.str "s"] rfl rfl⟩

/-- C4: `NewJson` on byte-sequence or string input returns the canonical
absent Json (exists false, nil data) together with a non-nil decode error
whenever decoding fails, and a Json with exists true holding the decoded
value — even a top-level null — whenever decoding succeeds. -/
theorem c4_newjson_errors :
    (∀ s : Str, goUnmarshal s = none →
        NewJson (.bytes s) = (⟨GoVal.null, false⟩, some ())
        ∧ NewJson (.str s) = (⟨GoVal.null, false⟩, some ()))
    ∧ (∀ (s : Str) (v : GoVal), goUnmarshal s = some v →
        NewJson (.bytes s) = (⟨v, true⟩, none)
        ∧ NewJson (.str s) = (⟨v, true⟩, none)) := by
  constructor
  · intro s h
    constructor <;> simp [NewJson, newJsonResult, h]
  · intro s v h
    constructor <;> simp [NewJson, newJsonResult, h]

theorem c4_witness :
    NewJson (.bytes "{broken: }") = (⟨GoVal.null, false⟩, some ())
    ∧ NewJson (.str "null") = (⟨GoVal.null, true⟩, none) :=
  ⟨(c4_newjson_errors.1 "{broken: }" rfl).1,
   (c4_newjson_errors.2 "null" GoVal.null rfl).2⟩

/-- C8: the serialisation methods encode the Json's current value,
producing the text `null` when the Json is absent; the silent variants
(`Stringify`, `StringifyIndent`) return exactly the string component of
the explicit-error variants (`Marshal`, `MarshalIndent`) that exist
side-by-side, hence the empty string whenever the explicit variant
errors. -/
theorem c8_stringify_marshal :
    (∀ j : Json, j.exists_ = false →
        j.Stringify = "null" ∧ j.Marshal = ("null", none)
        ∧ (∀ pre ind : Str, j.StringifyIndent pre ind = "null"
            ∧ j.MarshalIndent pre ind = ("null", none)))
    ∧ (∀ j : Json, j.exists_ = true →
        j.Stringify = jsonEncode j.data ∧ j.Marshal = (jsonEncode j.data, none))
    ∧ (∀ j : Json, j.Stringify = (j.Marshal).1
        ∧ ∀ pre ind : Str, j.StringifyIndent pre ind = (j.MarshalIndent pre ind).1) := by
  refine ⟨?_, ?_, ?_⟩
  · intro j h
    refine ⟨?_, ?_, fun pre ind => ⟨?_, ?_⟩⟩ <;>
      simp [Json.Stringify, Json.Marshal, Json.MarshalJSON, Json.MarshalIndent,
        Json.StringifyIndent, Json.effData, goMarshalVal, goMarshalIndentVal,
        jsonEncode, jsonEncodeInd, h]
  · intro j h
    constructor <;>
      simp [Json.Stringify, Json.Marshal, Json.MarshalJSON, Json.effData, goMarshalVal, h]
  · intro j
    refine ⟨?_, fun pre ind => ?_⟩
    · simp [Json.Stringify, Json.Marshal, Json.MarshalJSON, Json.effData, goMarshalVal]
    · simp [Json.StringifyIndent, Json.MarshalIndent, goMarshalIndentVal]

theorem c8_witness :
    (Json.mk (GoVal.num 7) false).Stringify = "null"
    ∧ (Json.mk (GoVal.num 7) false).StringifyIndent "" "  " = "null"
    ∧ (Json.mk (GoVal.bool true) true).Marshal = (jsonEncode (GoVal.bool true), none) :=
  ⟨(c8_stringify_marshal.1 _ rfl).1,
   ((c8_stringify_marshal.1 _ rfl).2.2 "" "  ").1,
   (c8_stringify_marshal.2.1 _ rfl).2⟩


/-- C3 counterexample: `NewJson` on the Go string scalar `"hello"` does
not succeed — the string is dispatched to the JSON-text branch of the
source's type switch, fails to decode, and yields the canonical absent
Json whose `String()` getter is invalid — contradicting the claim that
`NewJson` on an arbitrary Go string scalar succeeds with a valid
`String()` result. -/
theorem c3_counterexample :
    (NewJson (.str "hello")).2 ≠ none
    ∧ ((NewJson (.str "hello")).1.String).IsValid = false
    ∧ (NewJson (.str "hello")).1 = ⟨GoVal.null, false⟩ :=
  ⟨by decide, rfl, rfl⟩

/-- C3 amended: `NewJson` wraps no source directly.  A non-text source
(bool, number, or any other marshal-able value) is encoded to JSON text
and that text decoded back — so the result IS the round-trip result, with
exists true and the scalar preserved; a Go `string` source is not treated
as a string scalar but parsed as JSON text, failing (with the canonical
absent Json) whenever the string is not well-formed JSON. -/
theorem c3_amended_roundtrip :
    (∀ b : Bool, NewJson (.other (.bool b)) = (⟨GoVal.bool b, true⟩, none))
    ∧ NewJson (.other (.num 123)) = (⟨GoVal.num 123, true⟩, none)
    ∧ NewJson (.other (.num (mkRat 207 100))) = (⟨GoVal.num (mkRat 207 100), true⟩, none)
    ∧ NewJson (.other (.str "hi")) = (⟨GoVal.str "hi", true⟩, none)
    ∧ (∀ s : Str, goUnmarshal s = none →
        NewJson (.str s) = (⟨GoVal.null, false⟩, some ())) := by
  refine ⟨?_, rfl, rfl, rfl, ?_⟩
  · intro b
    cases b <;> rfl
  · intro s h
    simp [NewJson, newJsonResult, h]

theorem c3_witness :
    NewJson (.str "[oops") = (⟨GoVal.null, false⟩, some ()) :=
  c3_amended_roundtrip.2.2.2.2 "[oops" rfl

/-- C2 counterexample: on a Json wrapping the out-of-int64-range
`json.Number` text `"9223372036854775808"` (2^63), the `Int64` getter is
invalid yet carries the clamped value 2^63 − 1 returned by
`strconv.ParseInt` on a range error — not the zero value the claim
requires. -/
theorem c2_counterexample :
    ((Json.mk (GoVal.numStr "9223372036854775808") true).Int64).IsValid = false
    ∧ ((Json.mk (GoVal.numStr "9223372036854775808") true).Int64).Value = maxInt64
    ∧ ((Json.mk (GoVal.numStr "9223372036854775808") true).Int64).Value ≠ 0 :=
  ⟨rfl, by decide, by decide⟩

/-- C2 amended: whenever a typed-getter result is invalid its value is the
type's zero value, with one exception forced by the code: the `Int64`
(hence `Int`) getter on a string-backed `json.Number` may carry the
clamped bound `maxInt64`/`minInt64` when the decimal is out of int64 range
(for `Float64` the zero default is stated for non-`json.Number` data; the
out-of-range `json.Number` case of the concrete `strconv.ParseFloat`
yields an infinity, which the rational model cannot express). -/
theorem c2_zero_default_amended :
    (∀ j : Json, (j.String).IsValid = false → (j.String).Value = "")
    ∧ (∀ j : Json, (j.Bool).IsValid = false → (j.Bool).Value = false)
    ∧ (∀ j : Json, (j.Float64).IsValid = false → (∀ s, j.data ≠ GoVal.numStr s) →
        (j.Float64).Value = 0)
    ∧ (∀ j : Json, (j.Int64).IsValid = false →
        (j.Int64).Value = 0 ∨ (∃ s, j.data = GoVal.numStr s
          ∧ ((j.Int64).Value = maxInt64 ∨ (j.Int64).Value = minInt64)))
    ∧ (∀ j : Json, (j.Int).IsValid = false →
        (j.Int).Value = 0 ∨ (∃ s, j.data = GoVal.numStr s
          ∧ ((j.Int).Value = maxInt64 ∨ (j.Int).Value = minInt64))) := by
  have int64aux : ∀ j : Json, (j.Int64).IsValid = false →
      (j.Int64).Value = 0 ∨ (∃ s, j.data = GoVal.numStr s
        ∧ ((j.Int64).Value = maxInt64 ∨ (j.Int64).Value = minInt64)) := by
    intro j h
    cases he : j.exists_ with
    | false => left; simp [Json.Int64, he]
    | true =>
      cases hd : j.data with
      | numStr s =>
        rcases parseInt64_cases s with hok | h0 | hmax | hmin
        · rw [Json.Int64, he, if_pos rfl, hd] at h
          simp only [hok] at h
          exact absurd h (by simp)
        · left; simp [Json.Int64, he, hd, h0]
        · right; exact ⟨s, rfl, Or.inl (by simp [Json.Int64, he, hd, hmax])⟩
        · right; exact ⟨s, rfl, Or.inr (by simp [Json.Int64, he, hd, hmin])⟩
      | num q =>
        rw [Json.Int64, he, if_pos rfl, hd] at h
        exact absurd h (by simp)
      | _ => left; simp [Json.Int64, he, hd]
  refine ⟨?_, ?_, ?_, int64aux, ?_⟩
  · intro j h
    cases he : j.exists_ with
    | false => simp [Json.String, he]
    | true => cases hd : j.data <;> simp_all [Json.String]
  · intro j h
    cases he : j.exists_ with
    | false => simp [Json.Bool, he]
    | true => cases hd : j.data <;> simp_all [Json.Bool]
  · intro j h hns
    cases he : j.exists_ with
    | false => simp [Json.Float64, he]
    | true =>
      cases hd : j.data with
      | numStr s => exact absurd hd (hns s)
      | num q =>
        rw [Json.Float64, he, if_pos rfl, hd] at h
        exact absurd h (by simp)
      | _ => simp [Json.Float64, he, hd]
  · intro j h
    have h64 : (j.Int64).IsValid = false := h
    rcases int64aux j h64 with h0 | ⟨s, hs, hv⟩
    · left; simpa [Json.Int] using h0
    · right; exact ⟨s, hs, by simpa [Json.Int] using hv⟩

theorem c2_witness :
    ((Json.mk (GoVal.num 3) true).String).Value = ""
    ∧ ((Json.mk GoVal.null true).Bool).Value = false
    ∧ ((Json.mk (GoVal.str "t") true).Float64).Value = 0
    ∧ (((Json.mk (GoVal.numStr "1.5") true).Int64).Value = 0
        ∨ (∃ s, (Json.mk (GoVal.numStr "1.5") true).data = GoVal.numStr s
          ∧ (((Json.mk (GoVal.numStr "1.5") true).Int64).Value = maxInt64
            ∨ ((Json.mk (GoVal.numStr "1.5") true).Int64).Value = minInt64)))
    ∧ (((Json.mk (GoVal.bool true) true).Int).Value = 0
        ∨ (∃ s, (Json.mk (GoVal.bool true) true).data = GoVal.numStr s
          ∧ (((Json.mk (GoVal.bool true) true).Int).Value = maxInt64
            ∨ ((Json.mk (GoVal.bool true) true).Int).Value = minInt64))) :=
  ⟨c2_zero_default_amended.1 (Json.mk (GoVal.num 3) true) rfl,
   c2_zero_default_amended.2.1 (Json.mk GoVal.null true) rfl,
   c2_zero_default_amended.2.2.1 (Json.mk (GoVal.str "t") true) rfl
      (fun s h => by cases h),
   c2_zero_default_amended.2.2.2.1 (Json.mk (GoVal.numStr "1.5") true) rfl,
   c2_zero_default_amended.2.2.2.2 (Json.mk (GoVal.bool true) true) rfl⟩


/-- C6 counterexample: the claim says that on ANY invalid case the default
value is 0, but on the `json.Number` text `"-9223372036854775809"`
(−2^63 − 1, out of int64 range) the `Int64` getter is invalid with the
clamped value −2^63, not 0. -/
theorem c6_counterexample :
    ((Json.mk (GoVal.numStr "-9223372036854775809") true).Int64).IsValid = false
    ∧ ((Json.mk (GoVal.numStr "-9223372036854775809") true).Int64).Value = minInt64
    ∧ ((Json.mk (GoVal.numStr "-9223372036854775809") true).Int64).Value ≠ 0 :=
  ⟨rfl, by decide, by decide⟩

/-- C6 amended: `Int64()` is valid iff the Json exists and its data's tag
is number, where a string-backed `json.Number` is additionally required to
parse as an exact in-range 64-bit integer (fractional or out-of-range
text is invalid); a float64 payload whose truncation fits in int64 yields
that truncation toward zero (the characterising bounds are proved, so it
is truncation and not rounding); a `json.Number` payload yields exactly
the `strconv.ParseInt` result, so an invalid case other than an
out-of-range `json.Number` defaults to 0 (the out-of-range case is
clamped); and `Int()` returns `Int64()`'s value narrowed (the identity on
the 64-bit platforms) with validity inherited unchanged. -/
theorem c6_int64_amended :
    (∀ j : Json, (j.Int64).IsValid = true ↔
        (j.exists_ = true ∧ ((∃ q, j.data = GoVal.num q)
          ∨ (∃ s, j.data = GoVal.numStr s ∧ (parseInt64 s).2 = true))))
    ∧ (∀ (j : Json) (q : Rat), j.exists_ = true → j.data = GoVal.num q →
        minInt64 ≤ ratTrunc q → ratTrunc q ≤ maxInt64 →
        j.Int64 = ⟨ratTrunc q, true⟩)
    ∧ (∀ q : Rat, (0 ≤ q → ((ratTrunc q : Rat) ≤ q ∧ q - 1 < (ratTrunc q : Rat)))
        ∧ (q < 0 → (q ≤ (ratTrunc q : Rat) ∧ (ratTrunc q : Rat) < q + 1)))
    ∧ (∀ (j : Json) (s : Str), j.exists_ = true → j.data = GoVal.numStr s →
        j.Int64 = ⟨(parseInt64 s).1, (parseInt64 s).2⟩)
    ∧ (∀ s : Str, (parseInt64 s).2 = true →
        minInt64 ≤ (parseInt64 s).1 ∧ (parseInt64 s).1 ≤ maxInt64)
    ∧ (∀ j : Json, (j.Int64).IsValid = false → (∀ s, j.data ≠ GoVal.numStr s) →
        (j.Int64).Value = 0)
    ∧ (∀ j : Json, (j.Int).Value = (j.Int64).Value ∧ (j.Int).IsValid = (j.Int64).IsValid) := by
  refine ⟨?_, ?_, ratTrunc_toward_zero, ?_, parseInt64_ok_range, ?_, ?_⟩
  · intro j
    constructor
    · intro h
      cases he : j.exists_ with
      | false => simp [Json.Int64, he] at h
      | true =>
        refine ⟨rfl, ?_⟩
        cases hd : j.data with
        | num q => exact Or.inl ⟨q, rfl⟩
        | numStr s =>
          rw [Json.Int64, he, if_pos rfl, hd] at h
          exact Or.inr ⟨s, rfl, h⟩
        | _ => rw [Json.Int64, he, if_pos rfl, hd] at h; exact absurd h (by simp)
    · rintro ⟨he, ⟨q, hd⟩ | ⟨s, hd, hok⟩⟩
      · simp [Json.Int64, he, hd]
      · simp [Json.Int64, he, hd, hok]
  · intro j q he hd h1 h2
    have : int64OfFloat q = ratTrunc q := by
      rw [int64OfFloat, if_neg]
      omega
    simp [Json.Int64, he, hd, this]
  · intro j s he hd
    simp [Json.Int64, he, hd]
  · intro j h hns
    cases he : j.exists_ with
    | false => simp [Json.Int64, he]
    | true =>
      cases hd : j.data with
      | numStr s => exact absurd hd (hns s)
      | num q =>
        rw [Json.Int64, he, if_pos rfl, hd] at h
        exact absurd h (by simp)
      | _ => simp [Json.Int64, he, hd]
  · intro j
    exact ⟨rfl, rfl⟩

theorem c6_witness :
    ((Json.mk (GoVal.num (mkRat 207 100)) true).Int64).IsValid = true
    ∧ (Json.mk (GoVal.num (mkRat 207 100)) true).Int64 = ⟨2, true⟩
    ∧ (Json.mk (GoVal.num (mkRat (-207) 100)) true).Int64
        = ⟨ratTrunc (mkRat (-207) 100), true⟩
    ∧ (Json.mk (GoVal.numStr "42") true).Int64 = ⟨(parseInt64 "42").1, (parseInt64 "42").2⟩
    ∧ (minInt64 ≤ (parseInt64 "42").1 ∧ (parseInt64 "42").1 ≤ maxInt64)
    ∧ ((ratTrunc (mkRat 207 100) : Rat) ≤ mkRat 207 100
        ∧ mkRat 207 100 - 1 < (ratTrunc (mkRat 207 100) : Rat))
    ∧ ((Json.mk (GoVal.bool false) true).Int64).Value = 0 := by
  refine ⟨?_, ?_, ?_, ?_, ?_, ?_, ?_⟩
  · exact (c6_int64_amended.1 (Json.mk (GoVal.num (mkRat 207 100)) true)).2
      ⟨rfl, Or.inl ⟨mkRat 207 100, rfl⟩⟩
  · have h := c6_int64_amended.2.1 (Json.mk (GoVal.num (mkRat 207 100)) true)
      (mkRat 207 100) rfl rfl (by decide) (by decide)
    rw [h]
    rfl
  · exact c6_int64_amended.2.1 (Json.mk (GoVal.num (mkRat (-207) 100)) true)
      (mkRat (-207) 100) rfl rfl (by decide) (by decide)
  · exact c6_int64_amended.2.2.2.1 (Json.mk (GoVal.numStr "42") true) "42" rfl rfl
  · exact c6_int64_amended.2.2.2.2.1 "42" rfl
  · exact (c6_int64_amended.2.2.1 (mkRat 207 100)).1 (by decide)
  · exact c6_int64_amended.2.2.2.2.2.1 (Json.mk (GoVal.bool false) true) rfl
      (fun s h => by cases h)

end Jsn
